import Mathlib

/-!
Verification of `src/pandera/api/polars/model_components.py`.

The file shallowly embeds the module's three definitions — `FieldInfo`
(with its `name` property), the `Field` entry point, and `_check_dispatch` —
and proves the specification's claims about them.

External collaborators (the `Check` constructor library, the polars `col`
expression constructor, the process-wide custom-check registry, and the
attribute storage performed by the base class `BaseFieldInfo`, none of which
are part of the source file) are modelled as opaque values exactly as the
spec describes them: a check is the record of the constructor call that
produced it, a column-selector expression is an opaque constructor applied
to a string, and the registry is an explicit argument queried at call time.
-/

namespace PanderaPolars

/-- A Python value as it can be passed to the `Field` entry point: `None`,
booleans, integers, strings, lists, and string-keyed dicts (represented as
association lists in insertion order, the order Python dicts preserve). -/
inductive PyVal where
  | none : PyVal
  | bool : Bool → PyVal
  | int : Int → PyVal
  | str : String → PyVal
  | list : List PyVal → PyVal
  | dict : List (String × PyVal) → PyVal

/-- `isinstance(v, dict)`. -/
def isDict : PyVal → Bool
  | .dict _ => true
  | _ => false

/-- `v is None`. -/
def pyIsNone : PyVal → Bool
  | .none => true
  | _ => false

/-- Association-list lookup with Python-dict semantics (keys are unique in a
Python dict; with unique keys first-match lookup is dict lookup). -/
def alookup {α : Type} : List (String × α) → String → Option α
  | [], _ => Option.none
  | p :: rest, k => if p.1 = k then some p.2 else alookup rest k

/-- `d.get(k)` on a Python dict: `None` when the key is absent. -/
def pyGet (d : List (String × PyVal)) (k : String) : PyVal :=
  match alookup d k with
  | some v => v
  | Option.none => PyVal.none

/-- The shared check options `check_kwargs` built at the start of `Field`:
`ignore_na`, `raise_warning`, `n_failure_cases`. -/
structure CheckOpts where
  ignore_na : Bool
  raise_warning : Bool
  n_failure_cases : Option Int

/-- A check object, modelled (per the spec, which treats the external check
library as a black box) as the record of the constructor call that produced
it: either a positional invocation `ctor(value, **check_kwargs)` or a
named-parameter invocation `ctor(**mapping, **check_kwargs)`. -/
inductive Check where
  | positional : String → PyVal → CheckOpts → Check
  | named : String → List (String × PyVal) → CheckOpts → Check

/-- The fixed part of the dispatch table returned by `_check_dispatch`, in
its declaration order: keyword paired with the name of the `Check`-library
constructor it dispatches to. -/
def fixedDispatch : List (String × String) :=
  [("eq", "equal_to"),
   ("ne", "not_equal_to"),
   ("gt", "greater_than"),
   ("ge", "greater_than_or_equal_to"),
   ("lt", "less_than"),
   ("le", "less_than_or_equal_to"),
   ("in_range", "in_range"),
   ("between", "between"),
   ("isin", "isin"),
   ("notin", "notin"),
   ("str_contains", "str_contains"),
   ("str_endswith", "str_endswith"),
   ("str_matches", "str_matches"),
   ("str_length", "str_length"),
   ("str_startswith", "str_startswith"),
   ("unique_values_eq", "unique_values_eq")]

/-- The fixed constraint keywords, in declaration order. -/
def fixedKeywords : List String := fixedDispatch.map Prod.fst

/-- Python dict insertion as performed by `{**a, **b}`: an existing key is
updated in place (keeping its position), a new key is appended at the end. -/
def dictInsert (d : List (String × String)) (kv : String × String) :
    List (String × String) :=
  if d.any (fun p => p.1 = kv.1) then
    d.map (fun p => if p.1 = kv.1 then kv else p)
  else d ++ [kv]

/-- `_check_dispatch()`: the fixed table extended with
`Check.REGISTERED_CUSTOM_CHECKS`.  The registry is the process-wide
custom-check table at the moment of the call; it is passed explicitly here
because `_check_dispatch` reads it afresh on every invocation. -/
def checkDispatch (registry : List (String × String)) :
    List (String × String) :=
  registry.foldl dictInsert fixedDispatch

/-- The completed Field Descriptor: `FieldInfo` with the attributes stored by
its base class.  Modelled from the spec: `BaseFieldInfo` (not part of the
source file) stores the properties passed to the constructor, and
`original_name` is assigned by the external schema-model layer after
construction. -/
structure FieldInfo where
  original_name : String
  checks : Option (List Check)
  nullable : Bool
  unique : Bool
  coerce : Bool
  regex : Bool
  check_name : Option Bool
  «alias» : Option String
  title : Option String
  description : Option String
  default : PyVal
  dtype_kwargs : PyVal
  metadata : PyVal
  return_expresion : Bool

/-- A polars expression, modelled (per the spec) as the opaque constructor
`col` applied to a single string. -/
inductive PolarsExpr where
  | col : String → PolarsExpr

/-- The polymorphic result of name resolution: a plain string or a
column-selector expression (`Union[str, Expr]`). -/
inductive NameResult where
  | plain : String → NameResult
  | expr : PolarsExpr → NameResult

/-- The `FieldInfo.name` property:

    return_name = self.original_name
    if self.alias is not None:
        return_name = self.alias
    if self.return_expresion:
        if self.regex:
            return_name = "^" + return_name + "$"
        return_name = col(return_name)
    return return_name

The property assigns only to the local `return_name`, never to `self`, so it
is embedded as a pure function of the descriptor. -/
def FieldInfo.name (fi : FieldInfo) : NameResult :=
  let n0 := fi.original_name
  let n1 := match fi.«alias» with
    | some a => a
    | Option.none => n0
  if fi.return_expresion then
    NameResult.expr (PolarsExpr.col (if fi.regex then "^" ++ n1 ++ "$" else n1))
  else
    NameResult.plain n1

/-- The named parameters of the `Field` entry point, with the types the
source declares (constraint keywords are `Optional[Any]`, hence `PyVal`
with `PyVal.none` for an unsupplied argument). -/
structure FieldInput where
  eq : PyVal
  ne : PyVal
  gt : PyVal
  ge : PyVal
  lt : PyVal
  le : PyVal
  in_range : PyVal
  isin : PyVal
  notin : PyVal
  str_contains : PyVal
  str_endswith : PyVal
  str_length : PyVal
  str_matches : PyVal
  str_startswith : PyVal
  nullable : Bool
  unique : Bool
  coerce : Bool
  regex : Bool
  ignore_na : Bool
  raise_warning : Bool
  n_failure_cases : Option Int
  «alias» : Option String
  check_name : Option Bool
  dtype_kwargs : PyVal
  title : Option String
  description : Option String
  default : PyVal
  metadata : PyVal
  return_expresion : Bool

def optStr : Option String → PyVal
  | some s => PyVal.str s
  | Option.none => PyVal.none

def optBool : Option Bool → PyVal
  | some b => PyVal.bool b
  | Option.none => PyVal.none

def optInt : Option Int → PyVal
  | some n => PyVal.int n
  | Option.none => PyVal.none

/-- The shared options dict `check_kwargs` as a Python value. -/
def checkKwargsDict (input : FieldInput) : List (String × PyVal) :=
  [("ignore_na", PyVal.bool input.ignore_na),
   ("raise_warning", PyVal.bool input.raise_warning),
   ("n_failure_cases", optInt input.n_failure_cases)]

/-- The shared options as passed to every check constructor. -/
def checkOpts (input : FieldInput) : CheckOpts :=
  ⟨input.ignore_na, input.raise_warning, input.n_failure_cases⟩

/-- `args = locals()` at line 117 of the source: every local bound at that
point — the named parameters in declaration order, the collected `kwargs`
dict, and the already-computed `check_kwargs` dict.  (`args`, `checks` and
`check_dispatch` are bound later and therefore absent.) -/
def fieldLocals (input : FieldInput) (kwargs : List (String × PyVal)) :
    List (String × PyVal) :=
  [("eq", input.eq),
   ("ne", input.ne),
   ("gt", input.gt),
   ("ge", input.ge),
   ("lt", input.lt),
   ("le", input.le),
   ("in_range", input.in_range),
   ("isin", input.isin),
   ("notin", input.notin),
   ("str_contains", input.str_contains),
   ("str_endswith", input.str_endswith),
   ("str_length", input.str_length),
   ("str_matches", input.str_matches),
   ("str_startswith", input.str_startswith),
   ("nullable", PyVal.bool input.nullable),
   ("unique", PyVal.bool input.unique),
   ("coerce", PyVal.bool input.coerce),
   ("regex", PyVal.bool input.regex),
   ("ignore_na", PyVal.bool input.ignore_na),
   ("raise_warning", PyVal.bool input.raise_warning),
   ("n_failure_cases", optInt input.n_failure_cases),
   ("alias", optStr input.«alias»),
   ("check_name", optBool input.check_name),
   ("dtype_kwargs", input.dtype_kwargs),
   ("title", optStr input.title),
   ("description", optStr input.description),
   ("default", input.default),
   ("metadata", input.metadata),
   ("return_expresion", PyVal.bool input.return_expresion),
   ("kwargs", PyVal.dict kwargs),
   ("check_kwargs", PyVal.dict (checkKwargsDict input))]

/-- The names bound as locals when `args = locals()` runs. -/
def localNames : List String :=
  ["eq", "ne", "gt", "ge", "lt", "le", "in_range", "isin", "notin",
   "str_contains", "str_endswith", "str_length", "str_matches",
   "str_startswith", "nullable", "unique", "coerce", "regex", "ignore_na",
   "raise_warning", "n_failure_cases", "alias", "check_name", "dtype_kwargs",
   "title", "description", "default", "metadata", "return_expresion",
   "kwargs", "check_kwargs"]

/-- `args.get(arg_name, kwargs.get(arg_name))`: the local named `arg_name`
when one exists, otherwise the kwargs entry, otherwise `None`. -/
def argValue (input : FieldInput) (kwargs : List (String × PyVal))
    (key : String) : PyVal :=
  match alookup (fieldLocals input kwargs) key with
  | some v => v
  | Option.none => pyGet kwargs key

/-- One iteration of the check-construction loop:

    if arg_value is None: continue
    if isinstance(arg_value, dict): check_ = check_constructor(**arg_value, **check_kwargs)
    else: check_ = check_constructor(arg_value, **check_kwargs)
    checks.append(check_) -/
def buildCheck (ctor : String) (v : PyVal) (opts : CheckOpts) : Check :=
  match v with
  | .dict entries => Check.named ctor entries opts
  | _ => Check.positional ctor v opts

/-- The check-construction loop of `Field`, folding over the dispatch table
in its iteration order and appending one check per non-`None` value. -/
def checksFold (vals : String → PyVal) (opts : CheckOpts)
    (d : List (String × String)) (acc : List Check) : List Check :=
  d.foldl
    (fun acc e =>
      if pyIsNone (vals e.1) then acc
      else acc ++ [buildCheck e.2 (vals e.1) opts])
    acc

/-- The `checks` list `Field` accumulates for a given call. -/
def fieldChecks (input : FieldInput) (kwargs : List (String × PyVal))
    (registry : List (String × String)) : List Check :=
  checksFold (argValue input kwargs) (checkOpts input)
    (checkDispatch registry) []

/-- The outcome of a `Field` call: a `SchemaInitError` or a completed
descriptor.  An error means no descriptor was produced. -/
inductive FieldResult where
  | schemaInitError : String → FieldResult
  | ok : FieldInfo → FieldResult

/-- The `SchemaInitError` message, naming the offending keyword. -/
def schemaInitMsg (key : String) : String :=
  "custom check \x27" ++ key ++
    "\x27 is not available. Make sure you use " ++
    "pandera.extensions.register_check_method decorator to " ++
    "register your custom check method."

/-- `key in check_dispatch` as the source tests it. -/
def keyKnown (dispatch : List (String × String)) (k : String) : Bool :=
  dispatch.any (fun q => q.1 = k)

/-- The validation loop of `Field`: the first kwargs key missing from the
dispatch table, if any (the loop raises on the first offender). -/
def findUnknown (kwargs : List (String × PyVal))
    (dispatch : List (String × String)) : Option String :=
  (kwargs.find? (fun p => !keyKnown dispatch p.1)).map Prod.fst

/-- The `Field` entry point.  `kwargs` is the `**kwargs` dict (in the
caller's keyword order) and `registry` is `Check.REGISTERED_CUSTOM_CHECKS`
at the moment of the call.  Validation of unknown keywords happens before
any check is constructed; a failed call returns an error and never a
descriptor.  `checks or None` turns an empty list into `None`.
`original_name` is left empty: the schema-model layer assigns it later. -/
def Field (input : FieldInput) (kwargs : List (String × PyVal))
    (registry : List (String × String)) : FieldResult :=
  let dispatch := checkDispatch registry
  match findUnknown kwargs dispatch with
  | some key => FieldResult.schemaInitError (schemaInitMsg key)
  | Option.none =>
    let checks := fieldChecks input kwargs registry
    FieldResult.ok
      ⟨"", if checks.isEmpty then Option.none else some checks,
       input.nullable, input.unique, input.coerce, input.regex,
       input.check_name, input.«alias», input.title, input.description,
       input.default, input.dtype_kwargs, input.metadata,
       input.return_expresion⟩

/-- The checks produced by one pass over a dispatch table `d` in its
iteration order: one check per entry whose value is not `None`. -/
def orderedChecks (vals : String → PyVal) (opts : CheckOpts)
    (d : List (String × String)) : List Check :=
  d.filterMap
    (fun e =>
      if pyIsNone (vals e.1) then Option.none
      else some (buildCheck e.2 (vals e.1) opts))

/-- The constraint keywords that are named parameters of `Field` (the fixed
keywords minus `between` and `unique_values_eq`, which the source lists in
the dispatch table but not in the signature, so they reach `Field` through
`**kwargs`). -/
def namedConstraintKeywords : List String :=
  ["eq", "ne", "gt", "ge", "lt", "le", "in_range", "isin", "notin",
   "str_contains", "str_endswith", "str_length", "str_matches",
   "str_startswith"]

/-- A `Field` call that supplies the single constraint keyword `k` with value
`v` (through the named parameter when one exists, through `**kwargs`
otherwise), together with the shared options: the named-parameter part. -/
def onlyInput (ign rw : Bool) (nfc : Option Int) (k : String) (v : PyVal) :
    FieldInput :=
  ⟨if k = "eq" then v else PyVal.none,
   if k = "ne" then v else PyVal.none,
   if k = "gt" then v else PyVal.none,
   if k = "ge" then v else PyVal.none,
   if k = "lt" then v else PyVal.none,
   if k = "le" then v else PyVal.none,
   if k = "in_range" then v else PyVal.none,
   if k = "isin" then v else PyVal.none,
   if k = "notin" then v else PyVal.none,
   if k = "str_contains" then v else PyVal.none,
   if k = "str_endswith" then v else PyVal.none,
   if k = "str_length" then v else PyVal.none,
   if k = "str_matches" then v else PyVal.none,
   if k = "str_startswith" then v else PyVal.none,
   false, false, false, false, ign, rw, nfc,
   Option.none, Option.none, PyVal.none, Option.none, Option.none,
   PyVal.none, PyVal.none, false⟩

/-- The `**kwargs` part of the same single-keyword call. -/
def onlyKwargs (k : String) (v : PyVal) : List (String × PyVal) :=
  if k ∈ namedConstraintKeywords then [] else [(k, v)]

theorem pyIsNone_eq_true_iff (v : PyVal) : pyIsNone v = true ↔ v = PyVal.none := by
  cases v <;> simp [pyIsNone]

theorem pyIsNone_eq_false_of_ne {v : PyVal} (h : v ≠ PyVal.none) :
    pyIsNone v = false := by
  cases v <;> simp_all [pyIsNone]

theorem buildCheck_of_not_dict (c : String) {v : PyVal} (o : CheckOpts)
    (h : isDict v = false) : buildCheck c v o = Check.positional c v o := by
  cases v <;> simp_all [isDict, buildCheck]

theorem alookup_eq_none {α : Type} {l : List (String × α)} {k : String}
    (h : ¬ k ∈ l.map Prod.fst) : alookup l k = Option.none := by
  induction l with
  | nil => rfl
  | cons p rest ih =>
    simp only [List.map_cons, List.mem_cons, not_or] at h
    show (if p.1 = k then some p.2 else alookup rest k) = Option.none
    rw [if_neg (fun hpk : p.1 = k => h.1 hpk.symm)]
    exact ih h.2

theorem mem_of_alookup {α : Type} {l : List (String × α)} {k : String} {v : α}
    (h : alookup l k = some v) : (k, v) ∈ l := by
  induction l with
  | nil => simp [alookup] at h
  | cons p rest ih =>
    simp only [alookup] at h
    by_cases hp : p.1 = k
    · rw [if_pos hp] at h
      obtain ⟨a, b⟩ := p
      obtain rfl : a = k := hp
      obtain rfl : b = v := Option.some.inj h
      exact List.mem_cons_self _ _
    · rw [if_neg hp] at h
      exact List.mem_cons_of_mem _ (ih h)

theorem alookup_append {α : Type} (l1 l2 : List (String × α)) (k : String) :
    alookup (l1 ++ l2) k =
      match alookup l1 k with
      | some v => some v
      | Option.none => alookup l2 k := by
  induction l1 with
  | nil => simp [alookup]
  | cons p rest ih => by_cases hp : p.1 = k <;> simp [alookup, hp, ih]

theorem alookup_perm {α : Type} {l l' : List (String × α)} (h : l.Perm l')
    (hn : (l.map Prod.fst).Nodup) (k : String) : alookup l k = alookup l' k := by
  induction h with
  | nil => rfl
  | cons x h ih =>
    simp only [alookup]
    by_cases hx : x.1 = k
    · simp [hx]
    · simp only [List.map_cons, List.nodup_cons] at hn
      simp [hx, ih hn.2]
  | swap x y l =>
    simp only [List.map_cons, List.nodup_cons, List.mem_cons, not_or] at hn
    have hxy : y.1 ≠ x.1 := hn.1.1
    by_cases hy : y.1 = k <;> by_cases hx : x.1 = k <;>
      simp_all [alookup]
  | trans h1 h2 ih1 ih2 =>
    rw [ih1 hn, ih2 (((h1.map Prod.fst).nodup_iff).mp hn)]

theorem checksFold_eq (vals : String → PyVal) (opts : CheckOpts)
    (d : List (String × String)) (acc : List Check) :
    checksFold vals opts d acc = acc ++ orderedChecks vals opts d := by
  induction d generalizing acc with
  | nil => simp [checksFold, orderedChecks]
  | cons e rest ih =>
    simp only [checksFold] at ih ⊢
    simp only [List.foldl_cons]
    by_cases h : pyIsNone (vals e.1) = true
    · simp only [if_pos h, ih, orderedChecks, List.filterMap_cons]
    · simp only [if_neg h, ih, orderedChecks, List.filterMap_cons]
      simp

theorem orderedChecks_append (vals : String → PyVal) (opts : CheckOpts)
    (d1 d2 : List (String × String)) :
    orderedChecks vals opts (d1 ++ d2) =
      orderedChecks vals opts d1 ++ orderedChecks vals opts d2 := by
  simp [orderedChecks, List.filterMap_append]

theorem orderedChecks_congr {vals vals' : String → PyVal} (opts : CheckOpts)
    {d : List (String × String)} (h : ∀ e ∈ d, vals e.1 = vals' e.1) :
    orderedChecks vals opts d = orderedChecks vals' opts d := by
  induction d with
  | nil => rfl
  | cons e rest ih =>
    have he := h e (List.mem_cons_self _ _)
    simp only [orderedChecks, List.filterMap_cons] at ih ⊢
    rw [he, ih (fun x hx => h x (List.mem_cons_of_mem _ hx))]

theorem orderedChecks_eq_nil {vals : String → PyVal} (opts : CheckOpts)
    {d : List (String × String)} (h : ∀ e ∈ d, pyIsNone (vals e.1) = true) :
    orderedChecks vals opts d = [] := by
  induction d with
  | nil => rfl
  | cons e rest ih =>
    simp only [orderedChecks, List.filterMap_cons, if_pos (h e (List.mem_cons_self _ _))]
    exact ih (fun x hx => h x (List.mem_cons_of_mem _ hx))

theorem mem_orderedChecks (vals : String → PyVal) (opts : CheckOpts)
    {d : List (String × String)} {k c : String} (hm : (k, c) ∈ d)
    (hv : pyIsNone (vals k) = false) :
    buildCheck c (vals k) opts ∈ orderedChecks vals opts d := by
  rw [orderedChecks, List.mem_filterMap]
  exact ⟨(k, c), hm, by simp [hv]⟩

theorem dictInsert_fresh {d : List (String × String)} {kv : String × String}
    (h : ¬ kv.1 ∈ d.map Prod.fst) : dictInsert d kv = d ++ [kv] := by
  rw [dictInsert, if_neg]
  simp only [List.any_eq_true, decide_eq_true_eq]
  rintro ⟨p, hp, hpk⟩
  exact h (List.mem_map.mpr ⟨p, hp, hpk⟩)

theorem foldl_dictInsert_fresh :
    ∀ (r d : List (String × String)),
      (∀ p ∈ r, ¬ p.1 ∈ d.map Prod.fst) → (r.map Prod.fst).Nodup →
      r.foldl dictInsert d = d ++ r := by
  intro r
  induction r with
  | nil => intro d _ _; simp
  | cons kv rest ih =>
    intro d h hn
    simp only [List.map_cons, List.nodup_cons] at hn
    rw [List.foldl_cons, dictInsert_fresh (h kv (List.mem_cons_self _ _)), ih]
    · simp
    · intro p hp
      simp only [List.map_append, List.mem_append, List.map_cons, not_or]
      refine ⟨h p (List.mem_cons_of_mem _ hp), ?_⟩
      simp only [List.map_nil, List.mem_singleton]
      intro hpk
      exact hn.1 (hpk ▸ List.mem_map.mpr ⟨p, hp, rfl⟩)
    · exact hn.2

theorem checkDispatch_eq_append {registry : List (String × String)}
    (hdisj : ∀ p ∈ registry, ¬ p.1 ∈ fixedKeywords)
    (hn : (registry.map Prod.fst).Nodup) :
    checkDispatch registry = fixedDispatch ++ registry :=
  foldl_dictInsert_fresh registry fixedDispatch hdisj hn

theorem alookup_map_replace {d : List (String × String)} {kv : String × String}
    {k : String} (h : kv.1 ≠ k) :
    alookup (d.map (fun p => if p.1 = kv.1 then kv else p)) k = alookup d k := by
  induction d with
  | nil => rfl
  | cons p rest ih =>
    by_cases hp : p.1 = kv.1
    · simp only [List.map_cons, if_pos hp, alookup, if_neg h, if_neg (hp ▸ h)]
      exact ih
    · simp only [List.map_cons, if_neg hp, alookup]
      by_cases hpk : p.1 = k
      · simp [hpk]
      · simp [hpk, ih]

theorem alookup_map_replace_self {d : List (String × String)}
    {kv : String × String} (hc : kv.1 ∈ d.map Prod.fst) :
    alookup (d.map (fun p => if p.1 = kv.1 then kv else p)) kv.1 = some kv.2 := by
  induction d with
  | nil => simp at hc
  | cons p rest ih =>
    by_cases hp : p.1 = kv.1
    · simp [List.map_cons, if_pos hp, alookup]
    · simp only [List.map_cons, List.mem_cons] at hc
      rcases hc with hc | hc

      · exact absurd hc.symm hp
      · simp only [List.map_cons, if_neg hp, alookup, if_neg hp]
        exact ih hc

theorem alookup_dictInsert_self (d : List (String × String))
    (kv : String × String) : alookup (dictInsert d kv) kv.1 = some kv.2 := by
  rw [dictInsert]
  split_ifs with hc
  · refine alookup_map_replace_self ?_
    simp only [List.any_eq_true, decide_eq_true_eq] at hc
    obtain ⟨p, hp, hpk⟩ := hc
    exact List.mem_map.mpr ⟨p, hp, hpk⟩
  · have hnm : ¬ kv.1 ∈ d.map Prod.fst := by
      intro hm
      apply hc
      simp only [List.any_eq_true, decide_eq_true_eq]
      obtain ⟨p, hp, hpk⟩ := List.mem_map.mp hm
      exact ⟨p, hp, hpk⟩
    rw [alookup_append, alookup_eq_none hnm]
    simp [alookup]

theorem alookup_dictInsert_ne {d : List (String × String)}
    {kv : String × String} {k : String} (h : kv.1 ≠ k) :
    alookup (dictInsert d kv) k = alookup d k := by
  rw [dictInsert]
  split_ifs with hc
  · exact alookup_map_replace h
  · rw [alookup_append]
    cases halt : alookup d k with
    | some v => rfl
    | none => simp [alookup, if_neg h]

theorem alookup_foldl_dictInsert_not_mem {r : List (String × String)}
    {k : String} (h : ¬ k ∈ r.map Prod.fst) (d : List (String × String)) :
    alookup (r.foldl dictInsert d) k = alookup d k := by
  induction r generalizing d with
  | nil => rfl
  | cons kv rest ih =>
    simp only [List.map_cons, List.mem_cons, not_or] at h
    rw [List.foldl_cons, ih h.2, alookup_dictInsert_ne (fun hk => h.1 hk.symm)]

theorem alookup_foldl_dictInsert_mem {r : List (String × String)}
    {k v : String} (hn : (r.map Prod.fst).Nodup) (hm : (k, v) ∈ r)
    (d : List (String × String)) :
    alookup (r.foldl dictInsert d) k = some v := by
  induction r generalizing d with
  | nil => simp at hm
  | cons kv rest ih =>
    simp only [List.map_cons, List.nodup_cons] at hn
    rcases List.mem_cons.mp hm with hm | hm
    · have hk : kv.1 = k := by rw [← hm]
      have hv : kv.2 = v := by rw [← hm]
      rw [List.foldl_cons,
        alookup_foldl_dictInsert_not_mem (hk ▸ hn.1) (dictInsert d kv),
        ← hk, alookup_dictInsert_self, hv]
    · rw [List.foldl_cons]
      exact ih hn.2 hm (dictInsert d kv)

theorem alookup_checkDispatch_of_mem {registry : List (String × String)}
    {k v : String} (hn : (registry.map Prod.fst).Nodup)
    (hm : (k, v) ∈ registry) :
    alookup (checkDispatch registry) k = some v :=
  alookup_foldl_dictInsert_mem hn hm fixedDispatch

theorem fieldLocals_keys (input : FieldInput) (kwargs : List (String × PyVal)) :
    (fieldLocals input kwargs).map Prod.fst = localNames := rfl

theorem argValue_not_local {input : FieldInput} {kwargs : List (String × PyVal)}
    {key : String} (h : ¬ key ∈ localNames) :
    argValue input kwargs key = pyGet kwargs key := by
  rw [argValue, alookup_eq_none (by rw [fieldLocals_keys]; exact h)]

/-- The locals that do not mention the `kwargs` dict itself. -/
def fieldLocalsFront (input : FieldInput) : List (String × PyVal) :=
  [("eq", input.eq),
   ("ne", input.ne),
   ("gt", input.gt),
   ("ge", input.ge),
   ("lt", input.lt),
   ("le", input.le),
   ("in_range", input.in_range),
   ("isin", input.isin),
   ("notin", input.notin),
   ("str_contains", input.str_contains),
   ("str_endswith", input.str_endswith),
   ("str_length", input.str_length),
   ("str_matches", input.str_matches),
   ("str_startswith", input.str_startswith),
   ("nullable", PyVal.bool input.nullable),
   ("unique", PyVal.bool input.unique),
   ("coerce", PyVal.bool input.coerce),
   ("regex", PyVal.bool input.regex),
   ("ignore_na", PyVal.bool input.ignore_na),
   ("raise_warning", PyVal.bool input.raise_warning),
   ("n_failure_cases", optInt input.n_failure_cases),
   ("alias", optStr input.«alias»),
   ("check_name", optBool input.check_name),
   ("dtype_kwargs", input.dtype_kwargs),
   ("title", optStr input.title),
   ("description", optStr input.description),
   ("default", input.default),
   ("metadata", input.metadata),
   ("return_expresion", PyVal.bool input.return_expresion)]

theorem fieldLocals_split (input : FieldInput)
    (kwargs : List (String × PyVal)) :
    fieldLocals input kwargs =
      fieldLocalsFront input ++
        [("kwargs", PyVal.dict kwargs),
         ("check_kwargs", PyVal.dict (checkKwargsDict input))] := rfl

theorem alookup_fieldLocals_congr (input : FieldInput)
    {kwargs kwargs' : List (String × PyVal)} {key : String}
    (hk : key ≠ "kwargs") :
    alookup (fieldLocals input kwargs) key =
      alookup (fieldLocals input kwargs') key := by
  rw [fieldLocals_split, fieldLocals_split, alookup_append, alookup_append]
  cases h1 : alookup (fieldLocalsFront input) key with
  | some v => rfl
  | none =>
    show alookup _ key = alookup _ key
    simp only [alookup]
    rw [if_neg (fun h : "kwargs" = key => hk h.symm),
      if_neg (fun h : "kwargs" = key => hk h.symm)]

theorem argValue_perm {input : FieldInput}
    {kwargs kwargs' : List (String × PyVal)} {key : String}
    (hk : key ≠ "kwargs") (hp : kwargs.Perm kwargs')
    (hn : (kwargs.map Prod.fst).Nodup) :
    argValue input kwargs key = argValue input kwargs' key := by
  rw [argValue, argValue, alookup_fieldLocals_congr input hk]
  cases halt : alookup (fieldLocals input kwargs') key with
  | some v => rfl
  | none => simp only [pyGet, alookup_perm hp hn key]

/-- The descriptor a single-keyword `onlyInput` call produces: every
passthrough property at its default, `checks` as given. -/
def onlyInfo (checks : Option (List Check)) : FieldInfo :=
  ⟨"", checks, false, false, false, false, Option.none, Option.none,
   Option.none, Option.none, PyVal.none, PyVal.none, PyVal.none, false⟩

theorem Field_eq_ok {input : FieldInput} {kwargs : List (String × PyVal)}
    {registry : List (String × String)}
    (h : findUnknown kwargs (checkDispatch registry) = Option.none) :
    Field input kwargs registry = FieldResult.ok
      ⟨"", if (fieldChecks input kwargs registry).isEmpty then Option.none
           else some (fieldChecks input kwargs registry),
       input.nullable, input.unique, input.coerce, input.regex,
       input.check_name, input.«alias», input.title, input.description,
       input.default, input.dtype_kwargs, input.metadata,
       input.return_expresion⟩ := by
  simp only [Field, h]

theorem Field_eq_error {input : FieldInput} {kwargs : List (String × PyVal)}
    {registry : List (String × String)} {key : String}
    (h : findUnknown kwargs (checkDispatch registry) = some key) :
    Field input kwargs registry =
      FieldResult.schemaInitError (schemaInitMsg key) := by
  simp only [Field, h]

theorem Field_only (k : String) (hk : k ∈ fixedKeywords)
    (ign rw : Bool) (nfc : Option Int) (v : PyVal) :
    ∃ ctor, alookup fixedDispatch k = some ctor ∧
      Field (onlyInput ign rw nfc k v) (onlyKwargs k v) [] =
        FieldResult.ok (onlyInfo
          (if pyIsNone v then Option.none
           else some [buildCheck ctor v ⟨ign, rw, nfc⟩])) := by
  simp only [fixedKeywords, fixedDispatch, List.map_cons, List.map_nil,
    List.mem_cons, List.not_mem_nil, or_false] at hk
  cases hv : pyIsNone v with
  | true =>
    have hveq := (pyIsNone_eq_true_iff v).mp hv
    subst hveq
    rcases hk with rfl | rfl | rfl | rfl | rfl | rfl | rfl | rfl | rfl | rfl
      | rfl | rfl | rfl | rfl | rfl | rfl <;> exact ⟨_, rfl, rfl⟩
  | false =>
    rcases hk with rfl | rfl | rfl | rfl | rfl | rfl | rfl | rfl | rfl | rfl
      | rfl | rfl | rfl | rfl | rfl | rfl <;>
      (cases v <;> first | exact Bool.noConfusion hv | exact ⟨_, rfl, rfl⟩)

theorem keyKnown_eq_true {d : List (String × String)} {k : String}
    (h : k ∈ d.map Prod.fst) : keyKnown d k = true := by
  rw [keyKnown, List.any_eq_true]
  obtain ⟨q, hq, hqk⟩ := List.mem_map.mp h
  exact ⟨q, hq, by simp [hqk]⟩

theorem keyKnown_eq_false {d : List (String × String)} {k : String}
    (h : ¬ k ∈ d.map Prod.fst) : keyKnown d k = false := by
  rw [keyKnown, List.any_eq_false]
  intro q hq
  simp only [decide_eq_true_eq]
  intro hqk
  exact h (List.mem_map.mpr ⟨q, hq, hqk⟩)

theorem findUnknown_eq_none {kwargs : List (String × PyVal)}
    {dispatch : List (String × String)}
    (h : ∀ p ∈ kwargs, p.1 ∈ dispatch.map Prod.fst) :
    findUnknown kwargs dispatch = Option.none := by
  rw [findUnknown, Option.map_eq_none', List.find?_eq_none]
  intro p hp
  simp [keyKnown_eq_true (h p hp)]

/-- Replace the externally assigned `original_name`, leaving every other
stored attribute unchanged. -/
def setOriginalName : FieldInfo → String → FieldInfo
  | ⟨_, c, n, u, co, r, cn, a, t, de, df, dk, m, re⟩, s =>
    ⟨s, c, n, u, co, r, cn, a, t, de, df, dk, m, re⟩

/-- C6: a Field Descriptor with a non-`None` alias resolves its name from
the alias and never from `original_name`: in plain-name mode the result is
the alias itself, in expression-emission mode it is a column selector built
from the alias (anchored exactly when `regex` is set), and replacing
`original_name` by any other string leaves the resolution unchanged. -/
theorem C6_alias_precedence (fi : FieldInfo) (b : String)
    (hal : fi.«alias» = some b) :
    (fi.return_expresion = false → FieldInfo.name fi = NameResult.plain b) ∧
    (fi.return_expresion = true → FieldInfo.name fi =
      NameResult.expr (PolarsExpr.col
        (if fi.regex then "^" ++ b ++ "$" else b))) ∧
    (∀ s, FieldInfo.name (setOriginalName fi s) = FieldInfo.name fi) := by
  obtain ⟨onm, c, n, u, co, r, cn, a, t, de, df, dk, m, re⟩ := fi
  obtain rfl : a = some b := hal
  refine ⟨fun h => ?_, fun h => ?_, fun s => ?_⟩
  · obtain rfl : re = false := h
    rfl
  · obtain rfl : re = true := h
    rfl
  · rfl

/-- C7: with effective name `x` (alias set to `x`): expression-emission on
and `regex = true` resolves to a column selector built from the anchored
pattern `"^x$"`; expression-emission off resolves to the plain string `x`
with no anchoring; expression-emission on with `regex = false` resolves to
a column selector built from the unanchored `x`. -/
theorem C7_regex_expression_modes (orig x : String)
    (c : Option (List Check)) (n u co : Bool) (cn : Option Bool)
    (t de : Option String) (df dk m : PyVal) :
    FieldInfo.name ⟨orig, c, n, u, co, true, cn, some x, t, de, df, dk, m,
        true⟩ = NameResult.expr (PolarsExpr.col ("^" ++ x ++ "$")) ∧
    FieldInfo.name ⟨orig, c, n, u, co, true, cn, some x, t, de, df, dk, m,
        false⟩ = NameResult.plain x ∧
    FieldInfo.name ⟨orig, c, n, u, co, false, cn, some x, t, de, df, dk, m,
        true⟩ = NameResult.expr (PolarsExpr.col x) :=
  ⟨rfl, rfl, rfl⟩

/-- C8: name resolution is a pure function of the descriptor's stored state
(the embedding of the `name` property is a function, mirroring that the
source assigns only to a local, never to `self`): resolving twice yields
equal results, and two descriptors agreeing on the state `name` reads
(`original_name`, `alias`, `regex`, `return_expresion`) resolve equally. -/
theorem C8_name_resolution_pure (fi fi' : FieldInfo)
    (h1 : fi.original_name = fi'.original_name)
    (h2 : fi.«alias» = fi'.«alias») (h3 : fi.regex = fi'.regex)
    (h4 : fi.return_expresion = fi'.return_expresion) :
    FieldInfo.name fi = FieldInfo.name fi ∧
    FieldInfo.name fi = FieldInfo.name fi' := by
  refine ⟨rfl, ?_⟩
  rw [FieldInfo.name, FieldInfo.name, h1, h2, h3, h4]

/-- Witness for C6 at `original_name = "a"`, `alias = "b"`. -/
theorem C6_alias_precedence_witness :
    FieldInfo.name ⟨"a", Option.none, false, false, false, false,
        Option.none, some "b", Option.none, Option.none, PyVal.none,
        PyVal.none, PyVal.none, false⟩ = NameResult.plain "b" :=
  (C6_alias_precedence
    ⟨"a", Option.none, false, false, false, false, Option.none, some "b",
     Option.none, Option.none, PyVal.none, PyVal.none, PyVal.none, false⟩
    "b" rfl).1 rfl

/-- Witness for C8 at two descriptors equal on the read state. -/
theorem C8_name_resolution_pure_witness :
    FieldInfo.name ⟨"a", Option.none, false, false, false, true,
        Option.none, some "b", Option.none, Option.none, PyVal.none,
        PyVal.none, PyVal.none, true⟩ =
      FieldInfo.name ⟨"a", some [], true, true, true, true, some true,
        some "b", some "t", some "d", PyVal.int 0, PyVal.int 1,
        PyVal.int 2, true⟩ :=
  (C8_name_resolution_pure
    ⟨"a", Option.none, false, false, false, true, Option.none, some "b",
     Option.none, Option.none, PyVal.none, PyVal.none, PyVal.none, true⟩
    ⟨"a", some [], true, true, true, true, some true, some "b", some "t",
     some "d", PyVal.int 0, PyVal.int 1, PyVal.int 2, true⟩
    rfl rfl rfl rfl).2

/-- C3: compiling a field with a single fixed constraint keyword set to a
scalar (non-mapping, non-`None`) value produces exactly one check,
constructed by invoking the keyword's check-constructor positionally with
that value plus the shared options. -/
theorem C3_scalar_keyword_single_check (k : String) (ign rw : Bool)
    (nfc : Option Int) (v : PyVal) (hk : k ∈ fixedKeywords)
    (hv : v ≠ PyVal.none) (hd : isDict v = false) :
    ∃ ctor, alookup fixedDispatch k = some ctor ∧
      ∃ fi, Field (onlyInput ign rw nfc k v) (onlyKwargs k v) [] =
          FieldResult.ok fi ∧
        fi.checks = some [Check.positional ctor v ⟨ign, rw, nfc⟩] := by
  obtain ⟨ctor, hc, hf⟩ := Field_only k hk ign rw nfc v
  rw [pyIsNone_eq_false_of_ne hv] at hf
  simp only [Bool.false_eq_true, if_false] at hf
  rw [buildCheck_of_not_dict ctor ⟨ign, rw, nfc⟩ hd] at hf
  exact ⟨ctor, hc, _, hf, rfl⟩

/-- Witness for C3 at the keyword `gt` with the scalar value `5`. -/
theorem C3_scalar_keyword_single_check_witness :
    ∃ ctor, alookup fixedDispatch "gt" = some ctor ∧
      ∃ fi, Field (onlyInput true false Option.none "gt" (PyVal.int 5))
          (onlyKwargs "gt" (PyVal.int 5)) [] = FieldResult.ok fi ∧
        fi.checks =
          some [Check.positional ctor (PyVal.int 5)
            ⟨true, false, Option.none⟩] :=
  C3_scalar_keyword_single_check "gt" true false Option.none (PyVal.int 5)
    (by decide) (fun h => PyVal.noConfusion h) rfl

/-- C10: `None`, and only `None`, counts as absent for a constraint keyword:
any non-`None` value — falsy Python values such as `False`, `0`, `""`, `[]`
or `{}` included — yields exactly one check, while `None` yields none. -/
theorem C10_none_only_absent (k : String) (ign rw : Bool) (nfc : Option Int)
    (hk : k ∈ fixedKeywords) :
    (∀ v : PyVal, v ≠ PyVal.none →
      ∃ fi c, Field (onlyInput ign rw nfc k v) (onlyKwargs k v) [] =
          FieldResult.ok fi ∧ fi.checks = some [c]) ∧
    (∃ fi, Field (onlyInput ign rw nfc k PyVal.none)
        (onlyKwargs k PyVal.none) [] = FieldResult.ok fi ∧
      fi.checks = Option.none) := by
  constructor
  · intro v hv
    obtain ⟨ctor, _, hf⟩ := Field_only k hk ign rw nfc v
    rw [pyIsNone_eq_false_of_ne hv] at hf
    simp only [Bool.false_eq_true, if_false] at hf
    exact ⟨_, _, hf, rfl⟩
  · obtain ⟨ctor, _, hf⟩ := Field_only k hk ign rw nfc PyVal.none
    simp only [pyIsNone, if_true] at hf
    exact ⟨_, hf, rfl⟩

/-- Witness for C10 at the keyword `eq` with the falsy value `False`. -/
theorem C10_none_only_absent_witness :
    ∃ fi c, Field (onlyInput true false Option.none "eq" (PyVal.bool false))
        (onlyKwargs "eq" (PyVal.bool false)) [] = FieldResult.ok fi ∧
      fi.checks = some [c] :=
  (C10_none_only_absent "eq" true false Option.none (by decide)).1
    (PyVal.bool false) (fun h => PyVal.noConfusion h)

/-- C5: when every dispatch keyword's value is absent (`None`) and every
supplied `**kwargs` key is recognized, the produced descriptor's `checks`
attribute is `None` — not the empty sequence — and the check list built by
the loop is empty (no constructor call is recorded). -/
theorem C5_no_constraints_checks_absent (input : FieldInput)
    (kwargs : List (String × PyVal)) (registry : List (String × String))
    (hall : ∀ k ∈ (checkDispatch registry).map Prod.fst,
      argValue input kwargs k = PyVal.none)
    (hkw : ∀ p ∈ kwargs, p.1 ∈ (checkDispatch registry).map Prod.fst) :
    fieldChecks input kwargs registry = [] ∧
    ∃ fi, Field input kwargs registry = FieldResult.ok fi ∧
      fi.checks = Option.none := by
  have hchecks : fieldChecks input kwargs registry = [] := by
    rw [fieldChecks, checksFold_eq, List.nil_append]
    exact orderedChecks_eq_nil _ (fun e he =>
      (pyIsNone_eq_true_iff _).mpr
        (hall e.1 (List.mem_map.mpr ⟨e, he, rfl⟩)))
  refine ⟨hchecks, _, Field_eq_ok (findUnknown_eq_none hkw), ?_⟩
  show (if (fieldChecks input kwargs registry).isEmpty then Option.none
        else some (fieldChecks input kwargs registry)) = Option.none
  rw [hchecks]
  rfl

/-- Witness for C5: a `Field()` call with no constraint supplied. -/
theorem C5_no_constraints_checks_absent_witness :
    fieldChecks (onlyInput true false Option.none "eq" PyVal.none) [] [] =
      [] ∧
    ∃ fi, Field (onlyInput true false Option.none "eq" PyVal.none) [] [] =
        FieldResult.ok fi ∧ fi.checks = Option.none :=
  C5_no_constraints_checks_absent
    (onlyInput true false Option.none "eq" PyVal.none) [] []
    (by
      intro k hk
      simp only [checkDispatch, List.foldl_nil, fixedDispatch, List.map_cons,
        List.map_nil, List.mem_cons, List.not_mem_nil, or_false] at hk
      rcases hk with rfl | rfl | rfl | rfl | rfl | rfl | rfl | rfl | rfl
        | rfl | rfl | rfl | rfl | rfl | rfl | rfl <;> rfl)
    (fun p hp => absurd hp (List.not_mem_nil p))

/-- C1: a `Field` call whose `**kwargs` contains a keyword outside the
dispatch table (fixed set plus registered custom checks) returns a
`SchemaInitError` whose message names an offending keyword, and no
descriptor is produced (so no check is constructed). -/
theorem C1_unknown_keyword_error (input : FieldInput)
    (kwargs : List (String × PyVal)) (registry : List (String × String))
    {key : String} {v : PyVal} (hmem : (key, v) ∈ kwargs)
    (hunk : ¬ key ∈ (checkDispatch registry).map Prod.fst) :
    ∃ k, k ∈ kwargs.map Prod.fst ∧
      ¬ k ∈ (checkDispatch registry).map Prod.fst ∧
      Field input kwargs registry =
        FieldResult.schemaInitError (schemaInitMsg k) ∧
      (∃ pre suf, schemaInitMsg k = pre ++ k ++ suf) ∧
      ∀ fi, Field input kwargs registry ≠ FieldResult.ok fi := by
  have hsome : ((kwargs.find?
      (fun p => !keyKnown (checkDispatch registry) p.1)).isSome) := by
    rw [List.find?_isSome]
    exact ⟨(key, v), hmem, by simp [keyKnown_eq_false hunk]⟩
  obtain ⟨q, hq⟩ := Option.isSome_iff_exists.mp hsome
  have hqmem : q ∈ kwargs := List.mem_of_find?_eq_some hq
  have hqpred := List.find?_some hq
  have hqunk : ¬ q.1 ∈ (checkDispatch registry).map Prod.fst := by
    intro hin
    rw [keyKnown_eq_true hin] at hqpred
    exact Bool.noConfusion hqpred
  have herr : Field input kwargs registry =
      FieldResult.schemaInitError (schemaInitMsg q.1) :=
    Field_eq_error (by rw [findUnknown, hq]; rfl)
  refine ⟨q.1, List.mem_map.mpr ⟨q, hqmem, rfl⟩, hqunk, herr, ?_, ?_⟩
  · refine ⟨"custom check \x27",
      "\x27 is not available. Make sure you use " ++
        "pandera.extensions.register_check_method decorator to " ++
        "register your custom check method.", ?_⟩
    rw [schemaInitMsg]
    simp [String.append_assoc]
  · intro fi hok
    rw [herr] at hok
    exact FieldResult.noConfusion hok

/-- Witness for C1 at the unregistered keyword `bogus`. -/
theorem C1_unknown_keyword_error_witness :
    ∃ k, k ∈ ([("bogus", PyVal.int 1)] : List (String × PyVal)).map
        Prod.fst ∧
      ¬ k ∈ (checkDispatch []).map Prod.fst ∧
      Field (onlyInput true false Option.none "eq" PyVal.none)
          [("bogus", PyVal.int 1)] [] =
        FieldResult.schemaInitError (schemaInitMsg k) ∧
      (∃ pre suf, schemaInitMsg k = pre ++ k ++ suf) ∧
      ∀ fi, Field (onlyInput true false Option.none "eq" PyVal.none)
          [("bogus", PyVal.int 1)] [] ≠ FieldResult.ok fi :=
  C1_unknown_keyword_error (onlyInput true false Option.none "eq" PyVal.none)
    [("bogus", PyVal.int 1)] [] (List.mem_cons_self _ _) (by decide)

/-- C4: a fixed constraint keyword whose value is a mapping makes the
matching check-constructor be invoked with the mapping's entries as named
parameters together with the shared options, recorded as a `Check.named`
call in the produced checks. -/
theorem C4_mapping_named_params (input : FieldInput)
    (kwargs : List (String × PyVal)) (registry : List (String × String))
    (k ctor : String) (entries : List (String × PyVal))
    (hk : (k, ctor) ∈ fixedDispatch)
    (hreg : ∀ p ∈ registry, ¬ p.1 ∈ fixedKeywords)
    (hn : (registry.map Prod.fst).Nodup)
    (hv : argValue input kwargs k = PyVal.dict entries) :
    Check.named ctor entries (checkOpts input) ∈
      fieldChecks input kwargs registry := by
  rw [fieldChecks, checksFold_eq, List.nil_append]
  have hmem : (k, ctor) ∈ checkDispatch registry := by
    rw [checkDispatch_eq_append hreg hn]
    exact List.mem_append_left _ hk
  have hpn : pyIsNone (argValue input kwargs k) = false := by
    rw [hv]; rfl
  have hb := mem_orderedChecks (argValue input kwargs) (checkOpts input)
    hmem hpn
  rw [hv] at hb
  exact hb

/-- Witness for C4 at `in_range={"min_value": 1, "max_value": 2}`. -/
theorem C4_mapping_named_params_witness :
    Check.named "in_range"
        [("min_value", PyVal.int 1), ("max_value", PyVal.int 2)]
        (checkOpts (onlyInput true false Option.none "in_range"
          (PyVal.dict
            [("min_value", PyVal.int 1), ("max_value", PyVal.int 2)]))) ∈
      fieldChecks
        (onlyInput true false Option.none "in_range"
          (PyVal.dict
            [("min_value", PyVal.int 1), ("max_value", PyVal.int 2)]))
        [] [] :=
  C4_mapping_named_params _ [] [] "in_range" "in_range"
    [("min_value", PyVal.int 1), ("max_value", PyVal.int 2)]
    (by decide) (fun p hp => absurd hp (List.not_mem_nil p))
    List.nodup_nil rfl

/-- C9: the dispatch table is rebuilt from the registry on every call, so a
custom check registered before the call (whatever the module's initial
state) is recognized — it is present in the table, the call does not raise,
and the check is constructed by the registered constructor. -/
theorem C9_registry_queried_fresh (input : FieldInput)
    (registry : List (String × String)) (cname ctor : String) (v : PyVal)
    (hn : (registry.map Prod.fst).Nodup) (hm : (cname, ctor) ∈ registry)
    (hloc : ¬ cname ∈ localNames) (hv : v ≠ PyVal.none)
    (hd : isDict v = false) :
    alookup (checkDispatch registry) cname = some ctor ∧
    ∃ fi, Field input [(cname, v)] registry = FieldResult.ok fi ∧
      ∃ cs, fi.checks = some cs ∧
        Check.positional ctor v (checkOpts input) ∈ cs := by
  have halk : alookup (checkDispatch registry) cname = some ctor :=
    alookup_checkDispatch_of_mem hn hm
  have hmemd : (cname, ctor) ∈ checkDispatch registry := mem_of_alookup halk
  have hkeys : cname ∈ (checkDispatch registry).map Prod.fst :=
    List.mem_map.mpr ⟨(cname, ctor), hmemd, rfl⟩
  have hfu : findUnknown [(cname, v)] (checkDispatch registry) =
      Option.none := by
    apply findUnknown_eq_none
    intro p hp
    rcases List.mem_cons.mp hp with hp | hp
    · rw [hp]; exact hkeys
    · exact absurd hp (List.not_mem_nil p)
  have haval : argValue input [(cname, v)] cname = v := by
    rw [argValue_not_local hloc, pyGet]
    simp [alookup]
  have hpn : pyIsNone (argValue input [(cname, v)] cname) = false := by
    rw [haval]
    exact pyIsNone_eq_false_of_ne hv
  have hmemchk : Check.positional ctor v (checkOpts input) ∈
      fieldChecks input [(cname, v)] registry := by
    rw [fieldChecks, checksFold_eq, List.nil_append]
    have hb := mem_orderedChecks (argValue input [(cname, v)])
      (checkOpts input) hmemd hpn
    rw [haval, buildCheck_of_not_dict ctor (checkOpts input) hd] at hb
    exact hb
  refine ⟨halk, _, Field_eq_ok hfu,
    fieldChecks input [(cname, v)] registry, ?_, hmemchk⟩
  show (if (fieldChecks input [(cname, v)] registry).isEmpty
        then Option.none
        else some (fieldChecks input [(cname, v)] registry)) = some _
  rw [if_neg]
  intro hie
  exact List.ne_nil_of_mem hmemchk (List.isEmpty_iff.mp hie)

/-- Witness for C9: the custom check `mycheck` registered at call time. -/
theorem C9_registry_queried_fresh_witness :
    alookup (checkDispatch [("mycheck", "mycheck_ctor")]) "mycheck" =
      some "mycheck_ctor" ∧
    ∃ fi, Field (onlyInput true false Option.none "eq" PyVal.none)
        [("mycheck", PyVal.int 1)] [("mycheck", "mycheck_ctor")] =
        FieldResult.ok fi ∧
      ∃ cs, fi.checks = some cs ∧
        Check.positional "mycheck_ctor" (PyVal.int 1)
          (checkOpts (onlyInput true false Option.none "eq" PyVal.none)) ∈
          cs :=
  C9_registry_queried_fresh _ [("mycheck", "mycheck_ctor")] "mycheck"
    "mycheck_ctor" (PyVal.int 1) (by decide) (List.mem_cons_self _ _)
    (by decide) (fun h => PyVal.noConfusion h) rfl

/-- C2: order stability — the checks sequence follows the dispatch table's
fixed declaration order (`eq`, `ne`, `gt`, `ge`, `lt`, `le`, `in_range`,
`between`, `isin`, `notin`, `str_contains`, `str_endswith`, `str_matches`,
`str_length`, `str_startswith`, `unique_values_eq`, then the registered
custom checks, in registry order), and permuting the caller's keyword order
leaves the checks sequence unchanged. -/
theorem C2_checks_fixed_declaration_order (input : FieldInput)
    (kwargs kwargs' : List (String × PyVal))
    (registry : List (String × String))
    (hreg : ∀ p ∈ registry, ¬ p.1 ∈ fixedKeywords)
    (hregn : (registry.map Prod.fst).Nodup)
    (hregkw : ¬ "kwargs" ∈ registry.map Prod.fst)
    (hkwn : (kwargs.map Prod.fst).Nodup)
    (hperm : kwargs.Perm kwargs') :
    fieldChecks input kwargs' registry = fieldChecks input kwargs registry ∧
    fieldChecks input kwargs registry =
      orderedChecks (argValue input kwargs) (checkOpts input) fixedDispatch
        ++ orderedChecks (argValue input kwargs) (checkOpts input)
          registry := by
  have hdisp := checkDispatch_eq_append hreg hregn
  refine ⟨?_, ?_⟩
  · rw [fieldChecks, fieldChecks, checksFold_eq, checksFold_eq,
      List.nil_append, List.nil_append]
    apply orderedChecks_congr
    intro e he
    have hne : e.1 ≠ "kwargs" := by
      rw [hdisp] at he
      rcases List.mem_append.mp he with he | he
      · intro hkey
        have hmm : e.1 ∈ fixedKeywords := List.mem_map.mpr ⟨e, he, rfl⟩
        rw [hkey] at hmm
        exact absurd hmm (by decide)
      · intro hkey
        exact hregkw (hkey ▸ List.mem_map.mpr ⟨e, he, rfl⟩)
    exact (argValue_perm hne hperm hkwn).symm
  · rw [fieldChecks, checksFold_eq, List.nil_append, hdisp,
      orderedChecks_append]

/-- Witness for C2: custom keywords supplied in two different orders on top
of a `gt` constraint. -/
theorem C2_checks_fixed_declaration_order_witness :
    fieldChecks (onlyInput true false Option.none "gt" (PyVal.int 5))
        [("ac", PyVal.int 2), ("zc", PyVal.int 1)]
        [("ac", "ac_ctor"), ("zc", "zc_ctor")] =
      fieldChecks (onlyInput true false Option.none "gt" (PyVal.int 5))
        [("zc", PyVal.int 1), ("ac", PyVal.int 2)]
        [("ac", "ac_ctor"), ("zc", "zc_ctor")] ∧
    fieldChecks (onlyInput true false Option.none "gt" (PyVal.int 5))
        [("zc", PyVal.int 1), ("ac", PyVal.int 2)]
        [("ac", "ac_ctor"), ("zc", "zc_ctor")] =
      orderedChecks
          (argValue (onlyInput true false Option.none "gt" (PyVal.int 5))
            [("zc", PyVal.int 1), ("ac", PyVal.int 2)])
          (checkOpts (onlyInput true false Option.none "gt" (PyVal.int 5)))
          fixedDispatch ++
        orderedChecks
          (argValue (onlyInput true false Option.none "gt" (PyVal.int 5))
            [("zc", PyVal.int 1), ("ac", PyVal.int 2)])
          (checkOpts (onlyInput true false Option.none "gt" (PyVal.int 5)))
          [("ac", "ac_ctor"), ("zc", "zc_ctor")] :=
  C2_checks_fixed_declaration_order
    (onlyInput true false Option.none "gt" (PyVal.int 5))
    [("zc", PyVal.int 1), ("ac", PyVal.int 2)]
    [("ac", PyVal.int 2), ("zc", PyVal.int 1)]
    [("ac", "ac_ctor"), ("zc", "zc_ctor")]
    (by decide) (by decide) (by decide) (by decide)
    (List.Perm.swap ("ac", PyVal.int 2) ("zc", PyVal.int 1) [])

end PanderaPolars
